import Mathlib

/-!
Verification development for the tickyourbudget recurrence and reconciliation
engine.  Calendar dates are modelled as (year, month, day) triples of naturals
with months in 1..12; day numbers count days since 0001-01-01 in the proleptic
Gregorian calendar.  The recurrence evaluator, the reconciliation step and the
status toggle are modelled from the specification (their implementation file
transaction-engine.js is not part of the available sources); the month range
query and the cascade deletion are translated from js/db.js.
-/

structure Date where
  year : Nat
  month : Nat
  day : Nat
deriving DecidableEq

def isLeapYear (y : Nat) : Prop :=
  y % 4 = 0 ∧ (y % 100 ≠ 0 ∨ y % 400 = 0)

instance instDecidableIsLeapYear (y : Nat) : Decidable (isLeapYear y) := by
  unfold isLeapYear
  infer_instance

def daysInMonth (y m : Nat) : Nat :=
  if m = 2 then (if isLeapYear y then 29 else 28)
  else if m = 4 ∨ m = 6 ∨ m = 9 ∨ m = 11 then 30
  else 31

/-- Number of days of year `y` that lie in months strictly before month `m`. -/
def daysBeforeMonth (y : Nat) : Nat → Nat
  | 0 => 0
  | 1 => 0
  | m + 2 => daysBeforeMonth y (m + 1) + daysInMonth y (m + 1)

def yearLength (y : Nat) : Nat :=
  if isLeapYear y then 366 else 365

/-- Number of leap years among years `1..n`. -/
def leapsUpTo (n : Nat) : Nat :=
  n / 4 - n / 100 + n / 400

/-- Day number of January 1 of year `y` (for `1 ≤ y`). -/
def yearBase (y : Nat) : Nat :=
  365 * (y - 1) + leapsUpTo (y - 1)

/-- Day number of a calendar date, counting 0001-01-01 as day 0. -/
def toDayNum (d : Date) : Nat :=
  yearBase d.year + daysBeforeMonth d.year d.month + (d.day - 1)

/-- Locate the year containing absolute day `n`, starting the scan at year `y`.
The fuel argument makes the recursion structural; any fuel with
`n < 365 * fuel + 365` is sufficient. -/
def findYear : Nat → Nat → Nat → Nat × Nat
  | 0, y, n => (y, n)
  | fuel + 1, y, n =>
    if n < yearLength y then (y, n) else findYear fuel (y + 1) (n - yearLength y)

/-- Locate the month of year `y` containing the day-of-year offset `n`,
starting the scan at month `m` with `k` scan steps of fuel. -/
def findMonth (y : Nat) : Nat → Nat → Nat → Nat × Nat
  | 0, m, n => (m, n)
  | k + 1, m, n =>
    if m < 12 ∧ daysInMonth y m ≤ n then findMonth y k (m + 1) (n - daysInMonth y m)
    else (m, n)

/-- Calendar date of absolute day number `n` (inverse of `toDayNum`). -/
def ofDayNum (n : Nat) : Date :=
  let p := findYear (n / 365 + 1) 1 n
  let q := findMonth p.1 12 1 p.2
  ⟨p.1, q.1, q.2 + 1⟩

/-- The date `k` days after `d`. -/
def addDays (d : Date) (k : Nat) : Date :=
  ofDayNum (toDayNum d + k)

/-- Lexicographic order on calendar dates; for dates rendered as ISO
`YYYY-MM-DD` strings this coincides with lexicographic string order. -/
def Date.le (a b : Date) : Prop :=
  a.year < b.year ∨
    (a.year = b.year ∧ (a.month < b.month ∨ (a.month = b.month ∧ a.day ≤ b.day)))

def Date.lt (a b : Date) : Prop :=
  a.year < b.year ∨
    (a.year = b.year ∧ (a.month < b.month ∨ (a.month = b.month ∧ a.day < b.day)))

instance instDecidableDateLe (a b : Date) : Decidable (Date.le a b) := by
  unfold Date.le
  infer_instance

instance instDecidableDateLt (a b : Date) : Decidable (Date.lt a b) := by
  unfold Date.lt
  infer_instance

/-- A well-formed calendar date. -/
def Date.Valid (d : Date) : Prop :=
  1 ≤ d.year ∧ 1 ≤ d.month ∧ d.month ≤ 12 ∧ 1 ≤ d.day ∧
    d.day ≤ daysInMonth d.year d.month

instance instDecidableDateValid (d : Date) : Decidable d.Valid := by
  unfold Date.Valid
  infer_instance

/-- First calendar day of the month identified by `year` and 0-indexed `month`. -/
def firstDay (year month : Nat) : Date :=
  ⟨year, month + 1, 1⟩

/-- Last calendar day of the month identified by `year` and 0-indexed `month`. -/
def lastDay (year month : Nat) : Date :=
  ⟨year, month + 1, daysInMonth year (month + 1)⟩

theorem yearLength_ge (y : Nat) : 365 ≤ yearLength y := by
  unfold yearLength
  split <;> omega

theorem daysInMonth_pos (y m : Nat) : 1 ≤ daysInMonth y m := by
  unfold daysInMonth
  split
  · split <;> omega
  · split <;> omega

theorem daysInMonth_le (y m : Nat) : daysInMonth y m ≤ 31 := by
  unfold daysInMonth
  split
  · split <;> omega
  · split <;> omega

theorem daysBeforeMonth_succ (y m : Nat) (hm : 1 ≤ m) :
    daysBeforeMonth y (m + 1) = daysBeforeMonth y m + daysInMonth y m := by
  match m, hm with
  | k + 1, _ => rfl

theorem daysBeforeMonth_thirteen (y : Nat) :
    daysBeforeMonth y 13 = yearLength y := by
  by_cases h : isLeapYear y <;>
    simp [daysBeforeMonth, daysInMonth, yearLength, h]

theorem daysBeforeMonth_mono (y : Nat) {m m2 : Nat} (h1 : 1 ≤ m) (h : m ≤ m2) :
    daysBeforeMonth y m ≤ daysBeforeMonth y m2 := by
  induction m2, h using Nat.le_induction with
  | base => exact Nat.le_refl _
  | succ n hn ih =>
    have hstep := daysBeforeMonth_succ y n (by omega)
    omega

theorem yearBase_succ (y : Nat) (hy : 1 ≤ y) :
    yearBase (y + 1) = yearBase y + yearLength y := by
  unfold yearBase leapsUpTo yearLength
  by_cases h : isLeapYear y
  · rw [if_pos h]
    unfold isLeapYear at h
    omega
  · rw [if_neg h]
    unfold isLeapYear at h
    omega

theorem yearBase_mono {y1 y2 : Nat} (h1 : 1 ≤ y1) (h : y1 ≤ y2) :
    yearBase y1 ≤ yearBase y2 := by
  induction y2, h using Nat.le_induction with
  | base => exact Nat.le_refl _
  | succ n hn ih =>
    have := yearBase_succ n (by omega)
    omega

theorem findYear_spec : ∀ fuel y n, 1 ≤ y → n < 365 * fuel + 365 →
    yearBase (findYear fuel y n).1 + (findYear fuel y n).2 = yearBase y + n ∧
    (findYear fuel y n).2 < yearLength (findYear fuel y n).1 ∧
    1 ≤ (findYear fuel y n).1 := by
  intro fuel
  induction fuel with
  | zero =>
    intro y n hy hn
    have hge := yearLength_ge y
    have heq : findYear 0 y n = (y, n) := rfl
    rw [heq]
    exact ⟨rfl, show n < yearLength y from by omega, hy⟩
  | succ f ih =>
    intro y n hy hn
    by_cases h : n < yearLength y
    · have heq : findYear (f + 1) y n = (y, n) := by
        simp [findYear, h]
      rw [heq]
      exact ⟨rfl, h, hy⟩
    · have heq : findYear (f + 1) y n = findYear f (y + 1) (n - yearLength y) := by
        simp [findYear, h]
      rw [heq]
      have hge := yearLength_ge y
      have hrec := ih (y + 1) (n - yearLength y) (by omega) (by omega)
      have hbase := yearBase_succ y hy
      refine ⟨?_, hrec.2.1, hrec.2.2⟩
      omega

theorem findMonth_spec (y : Nat) : ∀ k m n, 1 ≤ m → m ≤ 12 → 13 ≤ m + k →
    daysBeforeMonth y m + n < daysBeforeMonth y 13 →
    daysBeforeMonth y (findMonth y k m n).1 + (findMonth y k m n).2 =
      daysBeforeMonth y m + n ∧
    1 ≤ (findMonth y k m n).1 ∧ (findMonth y k m n).1 ≤ 12 ∧
    (findMonth y k m n).2 < daysInMonth y (findMonth y k m n).1 := by
  intro k
  induction k with
  | zero =>
    intro m n h1 h2 h3 _
    omega
  | succ f ih =>
    intro m n h1 h2 h3 hbound
    by_cases h : m < 12 ∧ daysInMonth y m ≤ n
    · have heq : findMonth y (f + 1) m n = findMonth y f (m + 1) (n - daysInMonth y m) := by
        simp [findMonth, h]
      rw [heq]
      have hstep := daysBeforeMonth_succ y m h1
      have hrec := ih (m + 1) (n - daysInMonth y m) (by omega) (by omega)
        (by omega) (by omega)
      refine ⟨?_, hrec.2⟩
      omega
    · have heq : findMonth y (f + 1) m n = (m, n) := by
        simp only [findMonth, if_neg h]
      rw [heq]
      refine ⟨rfl, h1, h2, show n < daysInMonth y m from ?_⟩
      by_cases hm : m < 12
      · omega
      · have hm12 : m = 12 := by omega
        subst hm12
        have hstep : daysBeforeMonth y 13 = daysBeforeMonth y 12 + daysInMonth y 12 :=
          daysBeforeMonth_succ y 12 (by omega)
        omega

theorem toDayNum_ofDayNum (n : Nat) : toDayNum (ofDayNum n) = n := by
  have hy := findYear_spec (n / 365 + 1) 1 n (by omega)
    (by
      have h1 := Nat.div_add_mod n 365
      have h2 := Nat.mod_lt n (show 0 < 365 by omega)
      omega)
  have h13 := daysBeforeMonth_thirteen (findYear (n / 365 + 1) 1 n).1
  have h1 : daysBeforeMonth (findYear (n / 365 + 1) 1 n).1 1 = 0 := rfl
  have hm := findMonth_spec (findYear (n / 365 + 1) 1 n).1 12 1
    (findYear (n / 365 + 1) 1 n).2 (by omega) (by omega) (by omega) (by omega)
  have hbase1 : yearBase 1 = 0 := by simp [yearBase, leapsUpTo]
  show toDayNum ⟨(findYear (n / 365 + 1) 1 n).1,
      (findMonth (findYear (n / 365 + 1) 1 n).1 12 1 (findYear (n / 365 + 1) 1 n).2).1,
      (findMonth (findYear (n / 365 + 1) 1 n).1 12 1 (findYear (n / 365 + 1) 1 n).2).2 + 1⟩ = n
  simp only [toDayNum]
  omega

theorem ofDayNum_valid (n : Nat) : (ofDayNum n).Valid := by
  have hy := findYear_spec (n / 365 + 1) 1 n (by omega)
    (by
      have h1 := Nat.div_add_mod n 365
      have h2 := Nat.mod_lt n (show 0 < 365 by omega)
      omega)
  have h13 := daysBeforeMonth_thirteen (findYear (n / 365 + 1) 1 n).1
  have h1 : daysBeforeMonth (findYear (n / 365 + 1) 1 n).1 1 = 0 := rfl
  have hm := findMonth_spec (findYear (n / 365 + 1) 1 n).1 12 1
    (findYear (n / 365 + 1) 1 n).2 (by omega) (by omega) (by omega) (by omega)
  show Date.Valid ⟨(findYear (n / 365 + 1) 1 n).1,
      (findMonth (findYear (n / 365 + 1) 1 n).1 12 1 (findYear (n / 365 + 1) 1 n).2).1,
      (findMonth (findYear (n / 365 + 1) 1 n).1 12 1 (findYear (n / 365 + 1) 1 n).2).2 + 1⟩
  refine ⟨hy.2.2, hm.2.1, hm.2.2.1, ?_, ?_⟩
  · show 1 ≤ (findMonth (findYear (n / 365 + 1) 1 n).1 12 1 (findYear (n / 365 + 1) 1 n).2).2 + 1
    omega
  · show (findMonth (findYear (n / 365 + 1) 1 n).1 12 1 (findYear (n / 365 + 1) 1 n).2).2 + 1 ≤
      daysInMonth (findYear (n / 365 + 1) 1 n).1
        (findMonth (findYear (n / 365 + 1) 1 n).1 12 1 (findYear (n / 365 + 1) 1 n).2).1
    omega

theorem toDayNum_lt_of_year_end (d : Date) (hd : d.Valid) :
    toDayNum d < yearBase (d.year + 1) := by
  obtain ⟨hy, hm1, hm2, hd1, hd2⟩ := hd
  have hb := yearBase_succ d.year hy
  have h13 := daysBeforeMonth_thirteen d.year
  have hstep := daysBeforeMonth_succ d.year d.month hm1
  have hmono := daysBeforeMonth_mono d.year (show 1 ≤ d.month + 1 by omega)
    (show d.month + 1 ≤ 13 by omega)
  unfold toDayNum
  omega

theorem toDayNum_strict_mono {a b : Date} (ha : a.Valid) (hb : b.Valid)
    (h : Date.lt a b) : toDayNum a < toDayNum b := by
  obtain ⟨hay, ham1, ham2, had1, had2⟩ := ha
  obtain ⟨hby, hbm1, hbm2, hbd1, hbd2⟩ := hb
  rcases h with hyr | ⟨hyeq, h⟩
  · have h1 := toDayNum_lt_of_year_end a ⟨hay, ham1, ham2, had1, had2⟩
    have h2 : yearBase (a.year + 1) ≤ yearBase b.year :=
      yearBase_mono (by omega) (by omega)
    unfold toDayNum at h1 ⊢
    omega
  · rcases h with hmo | ⟨hmeq, hda⟩
    · have hstep := daysBeforeMonth_succ a.year a.month ham1
      have hmono := daysBeforeMonth_mono a.year (show 1 ≤ a.month + 1 by omega)
        (show a.month + 1 ≤ b.month by omega)
      unfold toDayNum
      rw [hyeq] at hstep hmono had2 ⊢
      omega
    · unfold toDayNum
      rw [hyeq, hmeq]
      omega

theorem date_lt_of_not_le {a b : Date} (h : ¬ Date.le a b) : Date.lt b a := by
  unfold Date.le at h
  unfold Date.lt
  omega

theorem date_le_of_toDayNum_le {a b : Date} (ha : a.Valid) (hb : b.Valid)
    (h : toDayNum a ≤ toDayNum b) : Date.le a b := by
  by_contra hc
  have hlt : Date.lt b a := date_lt_of_not_le hc
  have := toDayNum_strict_mono hb ha hlt
  omega

theorem toDayNum_le_of_date_le {a b : Date} (ha : a.Valid) (hb : b.Valid)
    (h : Date.le a b) : toDayNum a ≤ toDayNum b := by
  by_cases hlt : Date.lt a b
  · exact Nat.le_of_lt (toDayNum_strict_mono ha hb hlt)
  · have heq : a = b := by
      obtain ⟨ay, am, ad⟩ := a
      obtain ⟨by2, bm, bd⟩ := b
      unfold Date.le at h
      unfold Date.lt at hlt
      simp only [Date.mk.injEq]
      dsimp only at h hlt
      omega
    rw [heq]

/-- The first day number at or after period start `s` reachable from anchor
`a` by whole steps of `step` days. -/
def ffStart (step a s : Nat) : Nat :=
  if s ≤ a then a else a + step * ((s - a + step - 1) / step)

/-- Candidate day numbers for an interval-anchored frequency: fast-forward
from anchor `a` in whole steps of `step` days to the first day number that is
at least the period start `s`, then collect every `step`-th day number up to
the period end `e`. -/
def stepCandidates (step a s e : Nat) : List Nat :=
  if e < ffStart step a s then []
  else
    (List.range ((e - ffStart step a s) / step + 1)).map
      (fun i => ffStart step a s + step * i)

theorem ffStart_ge_anchor (step a s : Nat) : a ≤ ffStart step a s := by
  unfold ffStart
  split <;> omega

theorem ffStart_ge_start {step a s : Nat} (hstep : 0 < step) :
    s ≤ ffStart step a s := by
  unfold ffStart
  split
  · omega
  · have hdm := Nat.div_add_mod (s - a + step - 1) step
    have hml := Nat.mod_lt (s - a + step - 1) hstep
    omega

theorem ffStart_step_decomp (step a s : Nat) :
    ∃ k : Nat, ffStart step a s = a + step * k := by
  unfold ffStart
  split
  · exact ⟨0, by omega⟩
  · exact ⟨(s - a + step - 1) / step, rfl⟩

theorem ffStart_le_of_step_ge {step a s : Nat} (hstep : 0 < step) (n : Nat)
    (h : s ≤ a + step * n) : ffStart step a s ≤ a + step * n := by
  unfold ffStart
  split
  · omega
  · have hlt2 : s - a + step - 1 < (n + 1) * step := by
      have hdist : (n + 1) * step = n * step + step := by ring
      have hcm : step * n = n * step := by ring
      omega
    have hq : (s - a + step - 1) / step < n + 1 :=
      (Nat.div_lt_iff_lt_mul hstep).mpr hlt2
    have hmul : step * ((s - a + step - 1) / step) ≤ step * n :=
      Nat.mul_le_mul_left step (by omega)
    omega

theorem stepCandidates_mem {step a s e x : Nat} (hstep : 0 < step) :
    x ∈ stepCandidates step a s e ↔
      (∃ n : Nat, x = a + step * n) ∧ s ≤ x ∧ x ≤ e := by
  unfold stepCandidates
  obtain ⟨k, hk⟩ := ffStart_step_decomp step a s
  have hges : s ≤ ffStart step a s := ffStart_ge_start hstep
  split
  · rename_i hlt
    simp only [List.not_mem_nil, false_iff]
    rintro ⟨⟨n, rfl⟩, h1, h2⟩
    have := ffStart_le_of_step_ge hstep n h1
    omega
  · rename_i hlt
    simp only [List.mem_map, List.mem_range]
    constructor
    · rintro ⟨i, hi, rfl⟩
      have hile : i ≤ (e - ffStart step a s) / step := by omega
      have himul : i * step ≤ e - ffStart step a s :=
        (Nat.le_div_iff_mul_le hstep).mp hile
      have hcm : step * i = i * step := by ring
      refine ⟨⟨k + i, by rw [hk]; ring⟩, by omega, by omega⟩
    · rintro ⟨⟨n, rfl⟩, h1, h2⟩
      have hle := ffStart_le_of_step_ge hstep n h1
      have hkn : k ≤ n := by
        by_contra hcon
        have hge : n + 1 ≤ k := by omega
        have h3 : step * (n + 1) ≤ step * k := Nat.mul_le_mul_left step hge
        have hdist : step * (n + 1) = step * n + step := by ring
        omega
      have hsplit : step * n = step * k + step * (n - k) := by
        have h4 : step * k + step * (n - k) = step * (k + (n - k)) := by ring
        have h5 : k + (n - k) = n := by omega
        rw [h4, h5]
      have hnk : n - k ≤ (e - ffStart step a s) / step := by
        rw [Nat.le_div_iff_mul_le hstep]
        have hcm : (n - k) * step = step * (n - k) := by ring
        omega
      refine ⟨n - k, by omega, ?_⟩
      rw [hk]
      omega

/-- The six rule frequencies of the engine (spec section 4.1). -/
inductive Frequency
  | oneTime
  | weekly
  | biWeekly
  | monthly
  | quarterly
  | yearly
deriving DecidableEq

/-- The two occurrence statuses (TX_STATUS in js/models.js per the spec). -/
inductive TxStatus
  | pending
  | paid
deriving DecidableEq

/-- A budget item: the recurring rule template (spec section 3; APP.md 4.3).
The optional end date is an open question of the spec (section 9, do not
guess) and is not part of the modelled base contract. -/
structure BudgetItem where
  id : Nat
  profileId : Nat
  categoryId : Nat
  name : String
  amount : ℚ
  frequency : Frequency
  startDate : Date
deriving DecidableEq

/-- An occurrence as handled by the engine (spec section 3).  Occurrence
identity (a fresh UUID in the implementation) plays no role in the engine
contracts — the dedup key is (budgetItemId, date) — so it is omitted here to
keep the model deterministic. -/
structure Occurrence where
  budgetItemId : Nat
  profileId : Nat
  date : Date
  status : TxStatus
  snapshotName : String
  snapshotAmount : ℚ
deriving DecidableEq

/-- Modelled from the spec: the recurrence evaluator getOccurrencesInMonth of
js/transaction-engine.js is not among the available sources.  This follows
spec section 4.1 (and APP.md section 8.2): a short-circuit returning the
empty set when the anchor (startDate) is strictly after the last day of the
target period, then the per-frequency rules of the frequency table.  The
`month` parameter is 0-indexed, as documented for the reference behaviour. -/
def getOccurrencesInMonth (item : BudgetItem) (year month : Nat) : List Date :=
  if Date.lt (lastDay year month) item.startDate then []
  else
    match item.frequency with
    | .oneTime =>
        if item.startDate.year = year ∧ item.startDate.month = month + 1 then
          [item.startDate]
        else []
    | .weekly =>
        (stepCandidates 7 (toDayNum item.startDate) (toDayNum (firstDay year month))
          (toDayNum (lastDay year month))).map ofDayNum
    | .biWeekly =>
        (stepCandidates 14 (toDayNum item.startDate) (toDayNum (firstDay year month))
          (toDayNum (lastDay year month))).map ofDayNum
    | .monthly =>
        if Date.le item.startDate
            ⟨year, month + 1, min item.startDate.day (daysInMonth year (month + 1))⟩ then
          [⟨year, month + 1, min item.startDate.day (daysInMonth year (month + 1))⟩]
        else []
    | .quarterly =>
        if item.startDate.year * 12 + (item.startDate.month - 1) ≤ year * 12 + month ∧
            (year * 12 + month - (item.startDate.year * 12 + (item.startDate.month - 1))) % 3
              = 0 then
          [⟨year, month + 1, min item.startDate.day (daysInMonth year (month + 1))⟩]
        else []
    | .yearly =>
        if item.startDate.month = month + 1 ∧ item.startDate.year ≤ year then
          [⟨year, month + 1, min item.startDate.day (daysInMonth year (month + 1))⟩]
        else []

/-- The dedup key of an occurrence (spec section 4.2 step 3). -/
def txnKey (t : Occurrence) : Nat × Date := (t.budgetItemId, t.date)

/-- Local-midnight instant of the JS constructor new Date(year, monthIdx, day)
as a day number: the (year, monthIdx) pair is normalized through the absolute
month index, and day 0 denotes the day before the first of the month. -/
def jsLocalDayNum (year monthIdx day : Nat) : Int :=
  (toDayNum ⟨(year * 12 + monthIdx) / 12, (year * 12 + monthIdx) % 12 + 1, 1⟩ : Int) +
    day - 1

/-- Date part of toISOString for a local-midnight timestamp, as a day number:
the UTC instant is local midnight minus the east-of-UTC offset in minutes,
and the ISO date is that instant rounded down to whole days. -/
def isoDayNum (tzEastMinutes : Int) (localDay : Int) : Int :=
  (localDay * 1440 - tzEastMinutes).fdiv 1440

/-- Translated from js/db.js getTransactionsForMonth: the inclusive
[startDate, endDate] query bounds are the date parts of
new Date(year, month, 1).toISOString() and new Date(year, month + 1, 0).toISOString(),
here as day numbers, parameterized by the environment timezone offset
(minutes east of UTC). -/
def getTransactionsForMonthRange (tzEastMinutes : Int) (year month : Nat) :
    Int × Int :=
  (isoDayNum tzEastMinutes (jsLocalDayNum year month 1),
   isoDayNum tzEastMinutes (jsLocalDayNum year (month + 1) 0))

/-- Whether a persisted occurrence is returned by the range fetch of a
generate call: same scope, and date within the inclusive bounds computed by
getTransactionsForMonthRange for the environment timezone.  Dates are
compared as day numbers, which for well-formed dates agrees with the
lexicographic ISO string comparison of the IndexedDB range query. -/
def inMonthWindow (tzEastMinutes : Int) (profileId year month : Nat)
    (t : Occurrence) : Bool :=
  t.profileId == profileId &&
    decide ((getTransactionsForMonthRange tzEastMinutes year month).1 ≤
      (toDayNum t.date : Int)) &&
    decide ((toDayNum t.date : Int) ≤
      (getTransactionsForMonthRange tzEastMinutes year month).2)

/-- The Store range fetch used by generate (spec section 4.2 step 2), with
the bounds translated from js/db.js getTransactionsForMonth — the bound
computation is present in the sources and is timezone sensitive, so the
fetch carries the environment timezone offset; the store is passed
explicitly as a list. -/
def fetchExisting (tzEastMinutes : Int) (store : List Occurrence)
    (profileId year month : Nat) : List Occurrence :=
  store.filter (inMonthWindow tzEastMinutes profileId year month)

/-- Modelled from the spec: occurrence construction with the snapshot policy
(spec sections 4.2 step 4 and 4.3): status Pending, name and amount copied
from the current values of the rule. -/
def mkOccurrence (item : BudgetItem) (d : Date) : Occurrence :=
  ⟨item.id, item.profileId, d, .pending, item.name, item.amount⟩

/-- Modelled from the spec: the new occurrences a single rule contributes —
its evaluated dates whose (ruleId, date) key is not among the existing keys
(spec section 4.2 step 4). -/
def newOccurrencesFor (item : BudgetItem) (keys : List (Nat × Date))
    (year month : Nat) : List Occurrence :=
  ((getOccurrencesInMonth item year month).filter
      (fun d => decide ((item.id, d) ∉ keys))).map (mkOccurrence item)

/-- Modelled from the spec: all occurrences inserted by one generate call
(spec section 4.2 steps 1, 3, 4, 5), deduplicating against the keys of the
occurrences returned by the range fetch translated from js/db.js. -/
def generateNew (tzEastMinutes : Int) (store : List Occurrence)
    (items : List BudgetItem) (profileId year month : Nat) : List Occurrence :=
  (items.filter (fun i => i.profileId == profileId)).flatMap
    (fun i =>
      newOccurrencesFor i
        ((fetchExisting tzEastMinutes store profileId year month).map txnKey)
        year month)

def insertByDate (t : Occurrence) : List Occurrence → List Occurrence
  | [] => [t]
  | x :: xs => if Date.le x.date t.date then x :: insertByDate t xs else t :: x :: xs

/-- Stable sort ascending by date (spec section 4.2 step 6 with its
tie-break rule: same-date occurrences keep their relative order). -/
def sortByDate (l : List Occurrence) : List Occurrence :=
  l.foldl (fun acc t => insertByDate t acc) []

/-- Modelled from the spec: the list returned by
generateTransactionsForMonth — the union of fetched and newly inserted
occurrences, sorted ascending by date (spec section 4.2 step 6). -/
def generateTransactionsForMonth (tzEastMinutes : Int) (store : List Occurrence)
    (items : List BudgetItem) (profileId year month : Nat) : List Occurrence :=
  sortByDate
    (fetchExisting tzEastMinutes store profileId year month ++
      generateNew tzEastMinutes store items profileId year month)

/-- Modelled from the spec: the store contents after a generate call — each
new occurrence persisted individually via insert, nothing updated or removed
(spec section 4.2 step 5). -/
def generateStore (tzEastMinutes : Int) (store : List Occurrence)
    (items : List BudgetItem) (profileId year month : Nat) : List Occurrence :=
  store ++ generateNew tzEastMinutes store items profileId year month

/-- Modelled from the spec: toggleTransactionStatus of
js/transaction-engine.js (spec section 4.4; APP.md 8.4) flips the status
between Pending and Paid and leaves every other field unchanged. -/
def toggleTransactionStatus (t : Occurrence) : Occurrence :=
  { t with status := if t.status = TxStatus.paid then TxStatus.pending else TxStatus.paid }

/-- Sum of snapshot amounts, as accumulated by the summary loop of
js/views/home.js (renderHome). -/
def totalAmount (l : List Occurrence) : ℚ :=
  (l.map (fun t => t.snapshotAmount)).sum

/-- Sum of snapshot amounts of occurrences whose status is Paid
(js/views/home.js renderHome). -/
def paidAmount (l : List Occurrence) : ℚ :=
  ((l.filter (fun t => decide (t.status = TxStatus.paid))).map
    (fun t => t.snapshotAmount)).sum

/-- Sum of snapshot amounts of occurrences whose status is not Paid
(js/views/home.js renderHome treats every non-Paid status as pending). -/
def pendingAmount (l : List Occurrence) : ℚ :=
  ((l.filter (fun t => !(decide (t.status = TxStatus.paid)))).map
    (fun t => t.snapshotAmount)).sum

structure Profile where
  id : Nat
  name : String
deriving DecidableEq

structure Category where
  id : Nat
  profileId : Nat
  name : String
  parentId : Option Nat
deriving DecidableEq

/-- A persisted transaction record, with its primary key, as stored in the
transactions object store of js/db.js. -/
structure Txn where
  id : Nat
  budgetItemId : Nat
  profileId : Nat
  date : Date
  status : TxStatus
  snapshotName : String
  snapshotAmount : ℚ
deriving DecidableEq

/-- The four object stores of the tickyourbudget IndexedDB database
(js/db.js). -/
structure DBState where
  profiles : List Profile
  categories : List Category
  budgetItems : List BudgetItem
  transactions : List Txn
deriving DecidableEq

/-- dbGetByIndex on the budgetItemId index of the transactions store
(js/db.js). -/
def dbGetTxnsByBudgetItem (db : DBState) (budgetItemId : Nat) : List Txn :=
  db.transactions.filter (fun t => t.budgetItemId == budgetItemId)

/-- dbDelete on the transactions store: removes the record with the given
primary key (js/db.js). -/
def dbDeleteTxn (db : DBState) (txnId : Nat) : DBState :=
  { db with transactions := db.transactions.filter (fun t => !(t.id == txnId)) }

/-- Translated from js/db.js deleteTransactionsByBudgetItem: fetch the
transactions of the budget item through the index, then delete each one by
its primary key. -/
def deleteTransactionsByBudgetItem (db : DBState) (budgetItemId : Nat) : DBState :=
  (dbGetTxnsByBudgetItem db budgetItemId).foldl (fun acc t => dbDeleteTxn acc t.id) db

theorem totalAmount_split (l : List Occurrence) :
    totalAmount l = paidAmount l + pendingAmount l := by
  induction l with
  | nil => simp [totalAmount, paidAmount, pendingAmount]
  | cons hd tl ih =>
    unfold totalAmount paidAmount pendingAmount at ih ⊢
    by_cases hs : hd.status = TxStatus.paid <;>
      simp [List.filter_cons, hs] <;> rw [ih] <;> ring

/-- C7: for every rule of any frequency and every target period, if the
anchor date of the rule is strictly after the last day of the target period then
the evaluator returns the empty set. -/
theorem anchor_after_period_empty (item : BudgetItem) (year month : Nat)
    (h : Date.lt (lastDay year month) item.startDate) :
    getOccurrencesInMonth item year month = [] := by
  unfold getOccurrencesInMonth
  rw [if_pos h]

theorem anchor_after_period_empty_witness :
    Date.lt (lastDay 2024 0) (⟨2024, 5, 1⟩ : Date) ∧
    getOccurrencesInMonth ⟨1, 1, 1, "Rent", 1500, Frequency.monthly, ⟨2024, 5, 1⟩⟩
      2024 0 = [] :=
  ⟨by decide, anchor_after_period_empty _ 2024 0 (by decide)⟩

/-- C6: for every rule with frequency One-time and every target (year,
0-indexed month), the evaluator returns exactly the anchor when the anchor
year and month equal the target year and month, and the empty set
otherwise. -/
theorem one_time_exact_month (item : BudgetItem) (year month : Nat)
    (hf : item.frequency = Frequency.oneTime) (hv : item.startDate.Valid) :
    getOccurrencesInMonth item year month =
      if item.startDate.year = year ∧ item.startDate.month = month + 1 then
        [item.startDate]
      else [] := by
  unfold getOccurrencesInMonth
  rw [hf]
  by_cases hg : Date.lt (lastDay year month) item.startDate
  · rw [if_pos hg]
    split
    · rename_i hc
      exfalso
      obtain ⟨h1, h2, h3, h4, h5⟩ := hv
      obtain ⟨hcy, hcm⟩ := hc
      rw [hcy, hcm] at h5
      unfold Date.lt at hg
      unfold lastDay at hg
      dsimp only at hg
      omega
    · rfl
  · rw [if_neg hg]

theorem one_time_exact_month_witness :
    getOccurrencesInMonth ⟨1, 1, 1, "Gym", 30, Frequency.oneTime, ⟨2024, 5, 15⟩⟩
        2024 4 = [⟨2024, 5, 15⟩] ∧
    getOccurrencesInMonth ⟨1, 1, 1, "Gym", 30, Frequency.oneTime, ⟨2024, 5, 15⟩⟩
        2024 6 = [] := by
  have h1 := one_time_exact_month
    ⟨1, 1, 1, "Gym", 30, Frequency.oneTime, ⟨2024, 5, 15⟩⟩ 2024 4 rfl (by decide)
  have h2 := one_time_exact_month
    ⟨1, 1, 1, "Gym", 30, Frequency.oneTime, ⟨2024, 5, 15⟩⟩ 2024 6 rfl (by decide)
  rw [h1, h2]
  constructor
  · rw [if_pos (by exact ⟨rfl, rfl⟩)]
  · rw [if_neg (by decide)]

/-- C3 counterexample: the evaluator of a monthly rule anchored 2024-01-31,
applied to February 2023, returns the empty set (the anchor is strictly
after that period and 2023-02-28 is before the anchor), not {2023-02-28} as
the claim states. -/
theorem monthly_feb2023_counterexample :
    getOccurrencesInMonth ⟨1, 1, 1, "Rent", 1500, Frequency.monthly, ⟨2024, 1, 31⟩⟩
        2023 1 = [] ∧
    getOccurrencesInMonth ⟨1, 1, 1, "Rent", 1500, Frequency.monthly, ⟨2024, 1, 31⟩⟩
        2023 1 ≠ [⟨2023, 2, 28⟩] := by
  constructor
  · decide
  · decide

/-- C3 amended: for every Monthly rule the evaluator returns the single
candidate date with day min(anchor.day, daysInTargetMonth) iff that date is
at least the anchor date, and the empty set otherwise; the clamping uses the
true month length including leap years: a rule anchored 2024-01-31 yields
{2024-02-29} for February 2024, and one anchored 2023-01-31 yields
{2023-02-28} for February 2023, while a rule anchored 2024-01-31 yields the
empty set for February 2023 because the anchor postdates that period. -/
theorem monthly_clamps_to_month_length :
    (∀ (item : BudgetItem) (year month : Nat), item.frequency = Frequency.monthly →
      getOccurrencesInMonth item year month =
        if Date.le item.startDate
            ⟨year, month + 1, min item.startDate.day (daysInMonth year (month + 1))⟩ then
          [⟨year, month + 1, min item.startDate.day (daysInMonth year (month + 1))⟩]
        else []) ∧
    getOccurrencesInMonth ⟨1, 1, 1, "Rent", 1500, Frequency.monthly, ⟨2024, 1, 31⟩⟩
      2024 1 = [⟨2024, 2, 29⟩] ∧
    getOccurrencesInMonth ⟨1, 1, 1, "Rent", 1500, Frequency.monthly, ⟨2023, 1, 31⟩⟩
      2023 1 = [⟨2023, 2, 28⟩] ∧
    getOccurrencesInMonth ⟨1, 1, 1, "Rent", 1500, Frequency.monthly, ⟨2024, 1, 31⟩⟩
      2023 1 = [] := by
  refine ⟨?_, by decide, by decide, by decide⟩
  intro item year month hf
  unfold getOccurrencesInMonth
  rw [hf]
  by_cases hg : Date.lt (lastDay year month) item.startDate
  · rw [if_pos hg]
    split
    · rename_i hc
      exfalso
      unfold Date.lt at hg
      unfold Date.le at hc
      unfold lastDay at hg
      dsimp only at hg hc
      have hmin : min item.startDate.day (daysInMonth year (month + 1)) ≤
          daysInMonth year (month + 1) := Nat.min_le_right _ _
      omega
    · rfl
  · rw [if_neg hg]

theorem monthly_clamps_to_month_length_witness :
    getOccurrencesInMonth ⟨1, 1, 1, "Rent", 1500, Frequency.monthly, ⟨2024, 1, 15⟩⟩
      2024 5 = [⟨2024, 6, 15⟩] := by
  have h := monthly_clamps_to_month_length.1
    ⟨1, 1, 1, "Rent", 1500, Frequency.monthly, ⟨2024, 1, 15⟩⟩ 2024 5 rfl
  rw [h]
  decide

/-- C5: for every Quarterly rule with a well-formed anchor, a target month of
the evaluator domain is included iff the absolute month indices
(year*12 + month, both 0-indexed) differ by a non-negative multiple of 3,
with the day clamped as for Monthly; in particular a rule anchored 2024-01-15
is included in January, April, July and October 2024 only. -/
theorem quarterly_absolute_month_index :
    (∀ (item : BudgetItem) (year month : Nat), item.frequency = Frequency.quarterly →
      item.startDate.Valid → month ≤ 11 →
      getOccurrencesInMonth item year month =
        if item.startDate.year * 12 + (item.startDate.month - 1) ≤ year * 12 + month ∧
            (year * 12 + month -
              (item.startDate.year * 12 + (item.startDate.month - 1))) % 3 = 0 then
          [⟨year, month + 1, min item.startDate.day (daysInMonth year (month + 1))⟩]
        else []) ∧
    (∀ month : Nat, month < 12 →
      (getOccurrencesInMonth ⟨1, 1, 1, "Ins", 180, Frequency.quarterly, ⟨2024, 1, 15⟩⟩
          2024 month ≠ [] ↔
        month = 0 ∨ month = 3 ∨ month = 6 ∨ month = 9)) := by
  constructor
  · intro item year month hf hv hm
    unfold getOccurrencesInMonth
    rw [hf]
    by_cases hg : Date.lt (lastDay year month) item.startDate
    · rw [if_pos hg]
      split
      · rename_i hc
        exfalso
        obtain ⟨h1, h2, h3, h4, h5⟩ := hv
        unfold Date.lt at hg
        unfold lastDay at hg
        dsimp only at hg
        rcases hg with hy | ⟨hy, hrest⟩
        · omega
        · rcases hrest with hmo | ⟨hmo, hda⟩
          · omega
          · rw [← hy, ← hmo] at h5
            omega
      · rfl
    · rw [if_neg hg]
  · decide

/-- C8: the status toggle maps Pending to Paid and Paid to Pending with no
other transition target, applying it twice restores the original occurrence,
and the aggregate invariant total = paidSum + pendingSum over the snapshot
amounts holds for every occurrence list, in particular for the list obtained
after any toggle. -/
theorem toggle_involution_and_aggregates :
    (∀ (b p : Nat) (d : Date) (n : String) (a : ℚ),
      toggleTransactionStatus ⟨b, p, d, TxStatus.pending, n, a⟩ =
        ⟨b, p, d, TxStatus.paid, n, a⟩) ∧
    (∀ (b p : Nat) (d : Date) (n : String) (a : ℚ),
      toggleTransactionStatus ⟨b, p, d, TxStatus.paid, n, a⟩ =
        ⟨b, p, d, TxStatus.pending, n, a⟩) ∧
    (∀ t : Occurrence, toggleTransactionStatus (toggleTransactionStatus t) = t) ∧
    (∀ l : List Occurrence, totalAmount l = paidAmount l + pendingAmount l) ∧
    (∀ (l : List Occurrence) (t : Occurrence),
      totalAmount (l.map (fun x => if x = t then toggleTransactionStatus x else x)) =
        paidAmount (l.map (fun x => if x = t then toggleTransactionStatus x else x)) +
        pendingAmount (l.map (fun x => if x = t then toggleTransactionStatus x else x))) := by
  refine ⟨?_, ?_, ?_, totalAmount_split, fun l t => totalAmount_split _⟩
  · intro b p d n a
    rfl
  · intro b p d n a
    rfl
  · intro t
    obtain ⟨b, p, d, s, n, a⟩ := t
    cases s <;> rfl

/-- C9 (failing input evaluation): in an environment two hours east of UTC,
the month range computed by getTransactionsForMonth for February 2024 is
[2024-01-31, 2024-02-28] instead of the claimed [2024-02-01, 2024-02-29];
at UTC the computed range is correct, so the bounds do depend on the local
timezone, through the local-midnight-to-toISOString step. -/
theorem month_range_timezone_bug :
    getTransactionsForMonthRange 120 2024 1 =
      ((toDayNum ⟨2024, 1, 31⟩ : Int), (toDayNum ⟨2024, 2, 28⟩ : Int)) ∧
    getTransactionsForMonthRange 0 2024 1 =
      ((toDayNum (firstDay 2024 1) : Int), (toDayNum (lastDay 2024 1) : Int)) ∧
    getTransactionsForMonthRange 120 2024 1 ≠
      ((toDayNum (firstDay 2024 1) : Int), (toDayNum (lastDay 2024 1) : Int)) := by
  refine ⟨by decide, by decide, by decide⟩

theorem foldl_dbDeleteTxn (ms : List Txn) (db : DBState) :
    ms.foldl (fun acc t => dbDeleteTxn acc t.id) db =
      { db with transactions :=
          ms.foldl (fun l t => l.filter (fun x => !(x.id == t.id))) db.transactions } := by
  induction ms generalizing db with
  | nil => rfl
  | cons hd tl ih =>
    rw [List.foldl_cons, List.foldl_cons, ih]
    rfl

theorem foldl_filter_all (ms l : List Txn) :
    ms.foldl (fun acc t => acc.filter (fun x => !(x.id == t.id))) l =
      l.filter (fun x => ms.all (fun t => !(x.id == t.id))) := by
  induction ms generalizing l with
  | nil =>
    simp
  | cons hd tl ih =>
    rw [List.foldl_cons, ih, List.filter_filter]
    apply List.filter_congr
    intro x _
    rw [List.all_cons]
    rw [Bool.and_comm]

/-- C10: deleteTransactionsByBudgetItem removes exactly the transactions
whose budgetItemId equals the given id (given the primary-key invariant of
the transactions object store: the id determines the record) and leaves
every other transaction and the profiles, categories and budgetItems stores
unchanged. -/
theorem delete_by_budget_item_frame (db : DBState) (budgetItemId : Nat)
    (hids : ∀ a ∈ db.transactions, ∀ b ∈ db.transactions, a.id = b.id → a = b) :
    (deleteTransactionsByBudgetItem db budgetItemId).transactions =
      db.transactions.filter (fun t => !(t.budgetItemId == budgetItemId)) ∧
    (deleteTransactionsByBudgetItem db budgetItemId).profiles = db.profiles ∧
    (deleteTransactionsByBudgetItem db budgetItemId).categories = db.categories ∧
    (deleteTransactionsByBudgetItem db budgetItemId).budgetItems = db.budgetItems := by
  unfold deleteTransactionsByBudgetItem
  rw [foldl_dbDeleteTxn]
  refine ⟨?_, rfl, rfl, rfl⟩
  rw [foldl_filter_all]
  apply List.filter_congr
  intro x hx
  by_cases hb : x.budgetItemId = budgetItemId
  · have hmem : x ∈ dbGetTxnsByBudgetItem db budgetItemId := by
      unfold dbGetTxnsByBudgetItem
      rw [List.mem_filter]
      exact ⟨hx, by simp [hb]⟩
    have hfalse : (dbGetTxnsByBudgetItem db budgetItemId).all
        (fun t => !(x.id == t.id)) = false := by
      rw [Bool.eq_false_iff]
      intro hall
      rw [List.all_eq_true] at hall
      have := hall x hmem
      simp at this
    rw [hfalse]
    simp [hb]
  · have htrue : (dbGetTxnsByBudgetItem db budgetItemId).all
        (fun t => !(x.id == t.id)) = true := by
      rw [List.all_eq_true]
      intro t ht
      unfold dbGetTxnsByBudgetItem at ht
      rw [List.mem_filter] at ht
      obtain ⟨htm, htb⟩ := ht
      simp only [beq_iff_eq] at htb
      simp only [Bool.not_eq_eq_eq_not, Bool.not_true, beq_eq_false_iff_ne, ne_eq]
      intro hid
      have := hids x hx t htm hid
      rw [this] at hb
      exact hb htb
    rw [htrue]
    simp [hb]

theorem delete_by_budget_item_frame_witness :
    (deleteTransactionsByBudgetItem
        ⟨[⟨1, "Me"⟩], [⟨5, 1, "Bills", Option.none⟩],
          [⟨7, 1, 5, "Rent", 1500, Frequency.monthly, ⟨2024, 1, 1⟩⟩],
          [⟨100, 7, 1, ⟨2024, 1, 1⟩, TxStatus.paid, "Rent", 1500⟩,
           ⟨101, 8, 1, ⟨2024, 1, 2⟩, TxStatus.pending, "Gas", 50⟩,
           ⟨102, 7, 1, ⟨2024, 2, 1⟩, TxStatus.pending, "Rent", 1500⟩]⟩ 7).transactions =
      [⟨101, 8, 1, ⟨2024, 1, 2⟩, TxStatus.pending, "Gas", 50⟩] := by
  have h := delete_by_budget_item_frame
    ⟨[⟨1, "Me"⟩], [⟨5, 1, "Bills", Option.none⟩],
      [⟨7, 1, 5, "Rent", 1500, Frequency.monthly, ⟨2024, 1, 1⟩⟩],
      [⟨100, 7, 1, ⟨2024, 1, 1⟩, TxStatus.paid, "Rent", 1500⟩,
       ⟨101, 8, 1, ⟨2024, 1, 2⟩, TxStatus.pending, "Gas", 50⟩,
       ⟨102, 7, 1, ⟨2024, 2, 1⟩, TxStatus.pending, "Rent", 1500⟩]⟩ 7 (by decide)
  rw [h.1]
  decide

theorem firstDay_valid {year month : Nat} (hy : 1 ≤ year) (hm : month ≤ 11) :
    (firstDay year month).Valid := by
  unfold firstDay Date.Valid
  dsimp only
  exact ⟨hy, by omega, by omega, by omega, daysInMonth_pos year (month + 1)⟩

theorem lastDay_valid {year month : Nat} (hy : 1 ≤ year) (hm : month ≤ 11) :
    (lastDay year month).Valid := by
  unfold lastDay Date.Valid
  dsimp only
  exact ⟨hy, by omega, by omega, daysInMonth_pos year (month + 1), Nat.le_refl _⟩

theorem step_eval_mem {sd : Date} {year month step : Nat}
    (hstep : 0 < step) (hv : sd.Valid) (hy : 1 ≤ year) (hm : month ≤ 11) (d : Date) :
    (d ∈ if Date.lt (lastDay year month) sd then ([] : List Date)
         else (stepCandidates step (toDayNum sd) (toDayNum (firstDay year month))
              (toDayNum (lastDay year month))).map ofDayNum) ↔
      (∃ n : Nat, d = addDays sd (step * n) ∧
        Date.le (firstDay year month) d ∧ Date.le d (lastDay year month)) := by
  have hfv := firstDay_valid hy hm
  have hlv := lastDay_valid hy hm
  split
  · rename_i hg
    simp only [List.not_mem_nil, false_iff]
    rintro ⟨n, rfl, h1, h2⟩
    have hdval : (addDays sd (step * n)).Valid := ofDayNum_valid _
    have hdn : toDayNum (addDays sd (step * n)) = toDayNum sd + step * n :=
      toDayNum_ofDayNum _
    have hlt := toDayNum_strict_mono hlv hv hg
    have hle := toDayNum_le_of_date_le hdval hlv h2
    omega
  · rename_i hg
    rw [List.mem_map]
    constructor
    · rintro ⟨x, hx, rfl⟩
      rw [stepCandidates_mem hstep] at hx
      obtain ⟨⟨n, rfl⟩, h1, h2⟩ := hx
      refine ⟨n, rfl, ?_, ?_⟩
      · exact date_le_of_toDayNum_le hfv (ofDayNum_valid _)
          (by rw [toDayNum_ofDayNum]; omega)
      · exact date_le_of_toDayNum_le (ofDayNum_valid _) hlv
          (by rw [toDayNum_ofDayNum]; omega)
    · rintro ⟨n, rfl, h1, h2⟩
      refine ⟨toDayNum sd + step * n, ?_, rfl⟩
      rw [stepCandidates_mem hstep]
      have hdval : (addDays sd (step * n)).Valid := ofDayNum_valid _
      have hdn : toDayNum (addDays sd (step * n)) = toDayNum sd + step * n :=
        toDayNum_ofDayNum _
      have hle1 := toDayNum_le_of_date_le hfv hdval h1
      have hle2 := toDayNum_le_of_date_le hdval hlv h2
      exact ⟨⟨n, rfl⟩, by omega, by omega⟩

theorem weekly_eval_eq (item : BudgetItem) (year month : Nat)
    (hf : item.frequency = Frequency.weekly) :
    getOccurrencesInMonth item year month =
      if Date.lt (lastDay year month) item.startDate then []
      else (stepCandidates 7 (toDayNum item.startDate) (toDayNum (firstDay year month))
          (toDayNum (lastDay year month))).map ofDayNum := by
  unfold getOccurrencesInMonth
  rw [hf]

theorem biweekly_eval_eq (item : BudgetItem) (year month : Nat)
    (hf : item.frequency = Frequency.biWeekly) :
    getOccurrencesInMonth item year month =
      if Date.lt (lastDay year month) item.startDate then []
      else (stepCandidates 14 (toDayNum item.startDate) (toDayNum (firstDay year month))
          (toDayNum (lastDay year month))).map ofDayNum := by
  unfold getOccurrencesInMonth
  rw [hf]

/-- C4: weekly and bi-weekly evaluation is interval-anchored: a date is in
the result exactly when it is anchor + 7n (resp. anchor + 14n) days for some
n ≥ 0 and lies within [firstDayOfMonth, lastDayOfMonth]; consequently two
rules of the same frequency whose anchors differ by one day never produce a
common date, and the weekly rule anchored 2024-01-01 yields exactly
2024-03-04, 2024-03-11, 2024-03-18 and 2024-03-25 for March 2024. -/
theorem weekly_biweekly_interval_anchored :
    (∀ (item : BudgetItem) (year month : Nat), item.frequency = Frequency.weekly →
      item.startDate.Valid → 1 ≤ year → month ≤ 11 → ∀ d : Date,
      (d ∈ getOccurrencesInMonth item year month ↔
        ∃ n : Nat, d = addDays item.startDate (7 * n) ∧
          Date.le (firstDay year month) d ∧ Date.le d (lastDay year month))) ∧
    (∀ (item : BudgetItem) (year month : Nat), item.frequency = Frequency.biWeekly →
      item.startDate.Valid → 1 ≤ year → month ≤ 11 → ∀ d : Date,
      (d ∈ getOccurrencesInMonth item year month ↔
        ∃ n : Nat, d = addDays item.startDate (14 * n) ∧
          Date.le (firstDay year month) d ∧ Date.le d (lastDay year month))) ∧
    (∀ (i1 i2 : BudgetItem) (year month : Nat),
      i1.frequency = Frequency.weekly → i2.frequency = Frequency.weekly →
      i1.startDate.Valid → i2.startDate = addDays i1.startDate 1 →
      1 ≤ year → month ≤ 11 → ∀ d : Date,
      d ∈ getOccurrencesInMonth i1 year month →
      d ∈ getOccurrencesInMonth i2 year month → False) ∧
    (∀ (i1 i2 : BudgetItem) (year month : Nat),
      i1.frequency = Frequency.biWeekly → i2.frequency = Frequency.biWeekly →
      i1.startDate.Valid → i2.startDate = addDays i1.startDate 1 →
      1 ≤ year → month ≤ 11 → ∀ d : Date,
      d ∈ getOccurrencesInMonth i1 year month →
      d ∈ getOccurrencesInMonth i2 year month → False) ∧
    getOccurrencesInMonth ⟨1, 1, 1, "Gas", 50, Frequency.weekly, ⟨2024, 1, 1⟩⟩ 2024 2 =
      [⟨2024, 3, 4⟩, ⟨2024, 3, 11⟩, ⟨2024, 3, 18⟩, ⟨2024, 3, 25⟩] := by
  have hweek : ∀ (item : BudgetItem) (year month : Nat),
      item.frequency = Frequency.weekly →
      item.startDate.Valid → 1 ≤ year → month ≤ 11 → ∀ d : Date,
      (d ∈ getOccurrencesInMonth item year month ↔
        ∃ n : Nat, d = addDays item.startDate (7 * n) ∧
          Date.le (firstDay year month) d ∧ Date.le d (lastDay year month)) := by
    intro item year month hf hv hy hm d
    rw [weekly_eval_eq item year month hf]
    exact step_eval_mem (by omega) hv hy hm d
  have hbiweek : ∀ (item : BudgetItem) (year month : Nat),
      item.frequency = Frequency.biWeekly →
      item.startDate.Valid → 1 ≤ year → month ≤ 11 → ∀ d : Date,
      (d ∈ getOccurrencesInMonth item year month ↔
        ∃ n : Nat, d = addDays item.startDate (14 * n) ∧
          Date.le (firstDay year month) d ∧ Date.le d (lastDay year month)) := by
    intro item year month hf hv hy hm d
    rw [biweekly_eval_eq item year month hf]
    exact step_eval_mem (by omega) hv hy hm d
  refine ⟨hweek, hbiweek, ?_, ?_, ?_⟩
  · intro i1 i2 year month hf1 hf2 hv1 hanch hy hm d hd1 hd2
    have hv2 : i2.startDate.Valid := by
      rw [hanch]
      exact ofDayNum_valid _
    obtain ⟨n1, he1, _, _⟩ := (hweek i1 year month hf1 hv1 hy hm d).mp hd1
    obtain ⟨n2, he2, _, _⟩ := (hweek i2 year month hf2 hv2 hy hm d).mp hd2
    have e1 : toDayNum d = toDayNum i1.startDate + 7 * n1 := by
      rw [he1]
      exact toDayNum_ofDayNum _
    have e2 : toDayNum d = toDayNum i2.startDate + 7 * n2 := by
      rw [he2]
      exact toDayNum_ofDayNum _
    have e3 : toDayNum i2.startDate = toDayNum i1.startDate + 1 := by
      rw [hanch]
      exact toDayNum_ofDayNum _
    omega
  · intro i1 i2 year month hf1 hf2 hv1 hanch hy hm d hd1 hd2
    have hv2 : i2.startDate.Valid := by
      rw [hanch]
      exact ofDayNum_valid _
    obtain ⟨n1, he1, _, _⟩ := (hbiweek i1 year month hf1 hv1 hy hm d).mp hd1
    obtain ⟨n2, he2, _, _⟩ := (hbiweek i2 year month hf2 hv2 hy hm d).mp hd2
    have e1 : toDayNum d = toDayNum i1.startDate + 14 * n1 := by
      rw [he1]
      exact toDayNum_ofDayNum _
    have e2 : toDayNum d = toDayNum i2.startDate + 14 * n2 := by
      rw [he2]
      exact toDayNum_ofDayNum _
    have e3 : toDayNum i2.startDate = toDayNum i1.startDate + 1 := by
      rw [hanch]
      exact toDayNum_ofDayNum _
    omega
  · set_option maxRecDepth 10000 in decide

theorem weekly_biweekly_interval_anchored_witness :
    ⟨2024, 3, 11⟩ ∈ getOccurrencesInMonth
      ⟨1, 1, 1, "Gas", 50, Frequency.weekly, ⟨2024, 1, 1⟩⟩ 2024 2 := by
  refine (weekly_biweekly_interval_anchored.1
    ⟨1, 1, 1, "Gas", 50, Frequency.weekly, ⟨2024, 1, 1⟩⟩ 2024 2 rfl (by decide)
    (by decide) (by decide) ⟨2024, 3, 11⟩).mpr ⟨10, ?_, by decide, by decide⟩
  set_option maxRecDepth 10000 in decide

/-- C2: generate never mutates history and snapshots are write-once: every
already persisted occurrence is still present, unchanged, in the store after
any generate call (with any rule list, in particular after rule edits); every
occurrence a generate call creates snapshots the current name and amount of
its originating rule, with status Pending; and the status toggle leaves the
snapshot fields (and identity and date) of an occurrence unchanged. -/
theorem generate_preserves_history_and_snapshots (tzEastMinutes : Int)
    (store : List Occurrence) (items : List BudgetItem)
    (profileId year month : Nat) :
    (∀ t ∈ store, t ∈ generateStore tzEastMinutes store items profileId year month) ∧
    (∀ t ∈ generateNew tzEastMinutes store items profileId year month,
      ∃ i ∈ items, i.profileId = profileId ∧ t.budgetItemId = i.id ∧
        t.snapshotName = i.name ∧ t.snapshotAmount = i.amount ∧
        t.status = TxStatus.pending) ∧
    (∀ t : Occurrence,
      (toggleTransactionStatus t).snapshotName = t.snapshotName ∧
      (toggleTransactionStatus t).snapshotAmount = t.snapshotAmount ∧
      (toggleTransactionStatus t).budgetItemId = t.budgetItemId ∧
      (toggleTransactionStatus t).profileId = t.profileId ∧
      (toggleTransactionStatus t).date = t.date) := by
  refine ⟨?_, ?_, ?_⟩
  · intro t ht
    unfold generateStore
    exact List.mem_append_left _ ht
  · intro t ht
    unfold generateNew at ht
    rw [List.mem_flatMap] at ht
    obtain ⟨i, hi, hti⟩ := ht
    rw [List.mem_filter] at hi
    obtain ⟨hiMem, hiPid⟩ := hi
    unfold newOccurrencesFor at hti
    rw [List.mem_map] at hti
    obtain ⟨d, _, rfl⟩ := hti
    refine ⟨i, hiMem, ?_, rfl, rfl, rfl, rfl⟩
    simpa using hiPid
  · intro t
    exact ⟨rfl, rfl, rfl, rfl, rfl⟩

theorem generate_preserves_history_and_snapshots_witness :
    (⟨7, 1, ⟨2024, 1, 5⟩, TxStatus.paid, "Old Rent", 1400⟩ : Occurrence) ∈
      generateStore 120 [⟨7, 1, ⟨2024, 1, 5⟩, TxStatus.paid, "Old Rent", 1400⟩]
        [⟨9, 1, 5, "Rent", 1500, Frequency.monthly, ⟨2024, 1, 10⟩⟩] 1 2024 0 :=
  (generate_preserves_history_and_snapshots 120
    [⟨7, 1, ⟨2024, 1, 5⟩, TxStatus.paid, "Old Rent", 1400⟩]
    [⟨9, 1, 5, "Rent", 1500, Frequency.monthly, ⟨2024, 1, 10⟩⟩] 1 2024 0).1
    ⟨7, 1, ⟨2024, 1, 5⟩, TxStatus.paid, "Old Rent", 1400⟩ (by decide)

theorem quarterly_absolute_month_index_witness :
    getOccurrencesInMonth ⟨1, 1, 1, "Ins", 180, Frequency.quarterly, ⟨2024, 1, 15⟩⟩
      2024 3 = [⟨2024, 4, 15⟩] := by
  have h := quarterly_absolute_month_index.1
    ⟨1, 1, 1, "Ins", 180, Frequency.quarterly, ⟨2024, 1, 15⟩⟩ 2024 3 rfl
    (by decide) (by decide)
  rw [h]
  decide

/-- C1 (failing input evaluation): with the range fetch translated from
js/db.js getTransactionsForMonth, an environment 120 minutes east of UTC
computes the February 2024 window as [2024-01-31, 2024-02-28], which misses
the occurrence of a monthly rule anchored 2024-01-31 (clamped to 2024-02-29)
created by a first generate call.  The second call therefore inserts a second
occurrence with the same (ruleId, date) key — the store then holds the
2024-02-29 occurrence twice — instead of performing zero insertions, and
every retry adds another copy.  At UTC offset 0 the second call inserts
nothing, as the claim demands, so the violation comes from the
timezone-sensitive bound computation. -/
theorem generate_duplicate_insertion_bug :
    generateNew 120
        (generateStore 120 []
          [⟨9, 1, 5, "Rent", 1500, Frequency.monthly, ⟨2024, 1, 31⟩⟩] 1 2024 1)
        [⟨9, 1, 5, "Rent", 1500, Frequency.monthly, ⟨2024, 1, 31⟩⟩] 1 2024 1 =
      [⟨9, 1, ⟨2024, 2, 29⟩, TxStatus.pending, "Rent", 1500⟩] ∧
    generateStore 120
        (generateStore 120 []
          [⟨9, 1, 5, "Rent", 1500, Frequency.monthly, ⟨2024, 1, 31⟩⟩] 1 2024 1)
        [⟨9, 1, 5, "Rent", 1500, Frequency.monthly, ⟨2024, 1, 31⟩⟩] 1 2024 1 =
      [⟨9, 1, ⟨2024, 2, 29⟩, TxStatus.pending, "Rent", 1500⟩,
       ⟨9, 1, ⟨2024, 2, 29⟩, TxStatus.pending, "Rent", 1500⟩] ∧
    generateNew 0
        (generateStore 0 []
          [⟨9, 1, 5, "Rent", 1500, Frequency.monthly, ⟨2024, 1, 31⟩⟩] 1 2024 1)
        [⟨9, 1, 5, "Rent", 1500, Frequency.monthly, ⟨2024, 1, 31⟩⟩] 1 2024 1 = [] := by
  refine ⟨by decide, by decide, by decide⟩
